import Mathlib

/-! # Ripes main window: the New / Load / Save / Save-As workflow

A shallow embedding of the file workflow of `src/mainwindow.cpp`
(`removeFileExt`, `writeTextFile`, `writeBinaryFile`,
`MainWindow::saveFilesTriggered`, `MainWindow::saveFilesAsTriggered`,
`MainWindow::newProgramTriggered`, `MainWindow::loadFileTriggered`).

Modelling conventions.

* A `QString` is the list of its characters.  The only string operations the
  workflow uses are `isEmpty`, `clear`, `+`, `lastIndexOf(".")` and `left`;
  the needle `"."` is one code unit that is never half of a surrogate pair, so
  cutting a list of characters at the last `'.'` is the same cut.
* Modal dialogs are answered from a script held by `User`: one list of answers
  per kind of dialog, consumed front to back.  A dialog for which the script
  holds no answer is dismissed (Cancel / rejected).
* Everything observable that the window does (dialogs shown and how they were
  answered, write attempts on files, calls into the edit tab) is appended to
  `World.trace` in program order.
-/

namespace Ripes

/-! ## Qt strings -/

/-- A `QString`, as the list of its characters. -/
abbrev QString := List Char

/-- A `QByteArray`, as the list of its bytes. -/
abbrev QByteArray := List (Fin 256)

/-- The Qt function `QString::lastIndexOf` for a one-character needle, searching the whole
string: the index of the last occurrence of `c`, or `-1` when there is none. -/
def lastIndexOf : QString → Char → Int
  | [], _ => -1
  | x :: xs, c =>
    let r := lastIndexOf xs c
    if 0 ≤ r then r + 1 else if x = c then 0 else -1

/-- The Qt function `QString::left(n)`: the `n` leftmost characters; the entire string when `n`
is negative or not smaller than the size. -/
def left (s : QString) (n : Int) : QString :=
  if n < 0 ∨ (s.length : Int) ≤ n then s else s.take n.toNat

/-- The function `removeFileExt` (mainwindow.cpp, lines 159-162). -/
def removeFileExt (file : QString) : QString :=
  let lastPoint := lastIndexOf file '.'
  left file lastPoint

/-- The literal `".bin"` appended at line 195. -/
def binSuffix : QString := ['.', 'b', 'i', 'n']

/-- The name of the binary file, `removeFileExt(m_currentFile) + ".bin"`
(line 195), as a function of the text path. -/
def derivedBinaryPath (textPath : QString) : QString :=
  removeFileExt textPath ++ binSuffix

/-! ## Collaborators of the main window -/

/-- Modelled from the spec: `FileType` of `defines.h`, which is not among the
sources; section 6 calls it a closed enum holding at minimum `Assembly`.  The
remaining kinds are kept as numbered tags. -/
inductive FileType where
  | Assembly
  | other (tag : Nat)
  deriving DecidableEq, Repr

/-- Modelled from the spec: `LoadFileParams` of `loaddialog.h`, which is not
among the sources; section 6 gives it the fields `filepath` and `fileType`
(lines 128-130 write `parms.filepath` and `parms.type`). -/
structure LoadFileParams where
  filepath : QString
  type : FileType
  deriving DecidableEq, Repr

/-- Modelled from the spec: the part of `EditTab` (`edittab.h`, not among the
sources) that the main window reads, namely what `getAssemblyText()` and
`getBinaryData()` return (section 6). -/
structure EditTab where
  assemblyText : QString
  binaryData : QByteArray
  deriving DecidableEq, Repr

/-- The getter `EditTab::getAssemblyText()`. -/
def EditTab.getAssemblyText (t : EditTab) : QString := t.assemblyText

/-- The getter `EditTab::getBinaryData()`. -/
def EditTab.getBinaryData (t : EditTab) : QByteArray := t.binaryData

/-- Modelled from the spec: `EditTab::newProgram()` of `edittab.cpp`, which is
not among the sources; section 4.1 says it resets the editor to an empty
program. -/
def EditTab.newProgram (_ : EditTab) : EditTab :=
  { assemblyText := [], binaryData := [] }

/-- The three buttons of the message box of `newProgramTriggered`
(`QMessageBox::Yes | QMessageBox::No | QMessageBox::Cancel`, line 215). -/
inductive Button where
  | Yes
  | No
  | Cancel
  deriving DecidableEq, Repr

/-- What lies outside the program: which files can be opened for writing, and
what `EditTab::loadFile` (not among the sources) makes of the editor. -/
structure Env where
  writable : QString → Bool
  loadFile : LoadFileParams → EditTab → EditTab

/-- The answers the user will give, one list per kind of dialog, consumed front
to back: `mbox` for the message box of `newProgramTriggered`, `saveDlg` for the
`QFileDialog` of `saveFilesAsTriggered` (`none` is a rejected dialog, `some p`
an accepted one with `selectedFiles()[0] = p`), `loadDlg` for the `LoadDialog`
of `loadFileTriggered`. -/
structure User where
  mbox : List Button
  saveDlg : List (Option QString)
  loadDlg : List (Option LoadFileParams)
  deriving DecidableEq, Repr

/-- The observable steps of the workflow. -/
inductive Event where
  /-- The call `mbox.exec()` returned with this button (lines 219, 236). -/
  | prompt (ret : Button)
  /-- The call `dialog.exec()` of `saveFilesAsTriggered` returned (line 206). -/
  | saveAsChooser (answer : Option QString)
  /-- The call `diag.exec()` of `loadFileTriggered` returned (line 143). -/
  | loadChooser (answer : Option LoadFileParams)
  /-- The function `writeTextFile` was called on the file `path` with `data`; `opened` tells
  whether `file.open` succeeded, that is whether `data` reached the file. -/
  | writeText (path : QString) (data : QString) (opened : Bool)
  /-- The function `writeBinaryFile` was called on the file `path` with `data`. -/
  | writeBinary (path : QString) (data : QByteArray) (opened : Bool)
  /-- The call `m_editTab->newProgram()` was made (line 251). -/
  | editorNewProgram
  /-- The call `m_editTab->loadFile(params)` was made (line 146). -/
  | editorLoadFile (params : LoadFileParams)
  deriving DecidableEq, Repr

/-- The main window's share of the state, `m_currentFile` and the edit tab,
with the trace of what has happened so far. -/
structure World where
  m_currentFile : QString
  m_editTab : EditTab
  trace : List Event
  deriving DecidableEq, Repr

/-- Append one event to the trace. -/
def World.log (w : World) (e : Event) : World :=
  { w with trace := w.trace ++ [e] }

/-! ## File writes (lines 163-176) -/

/-- The Qt call `QFile::open(QIODevice::WriteOnly)`: it fails on a file without a name, and
otherwise succeeds when the environment lets the file be written. -/
def openWriteOnly (env : Env) (name : QString) : Bool :=
  !name.isEmpty && env.writable name

/-- The function `writeTextFile` (lines 163-169): the data is streamed into the file only
when it could be opened; nothing is reported to the caller either way. -/
def writeTextFile (env : Env) (file : QString) (data : QString) (w : World) : World :=
  w.log (Event.writeText file data (openWriteOnly env file))

/-- The function `writeBinaryFile` (lines 171-176). -/
def writeBinaryFile (env : Env) (file : QString) (data : QByteArray) (w : World) : World :=
  w.log (Event.writeBinary file data (openWriteOnly env file))

/-! ## Save and Save As (lines 180-210) -/

/-- The two blocks of `saveFilesTriggered` after its `if` (lines 186-197): the
text goes to `m_currentFile`, then the binary to
`removeFileExt(m_currentFile) + ".bin"`. -/
def writeFiles (env : Env) (w : World) : World :=
  let w1 := writeTextFile env w.m_currentFile w.m_editTab.getAssemblyText w
  writeBinaryFile env (removeFileExt w1.m_currentFile ++ binSuffix) w1.m_editTab.getBinaryData w1

/-- The slot `MainWindow::saveFilesTriggered` (lines 180-198), with the pending chooser
answers as an argument and what is left of them in the result.

`saveFilesTriggered` and `saveFilesAsTriggered` call each other; here the call
of `saveFilesAsTriggered()` at line 182 is written out, so that the recursion
runs on the list of answers (each round consumes one).  `saveFilesTriggered_eq`
below restores the shape of the source.  Control always continues with the two
writes: line 182 is not followed by a `return`. -/
def saveFilesTriggered (env : Env) :
    List (Option QString) → World → World × List (Option QString)
  | [], w =>
    if w.m_currentFile.isEmpty then
      (writeFiles env (w.log (Event.saveAsChooser none)), [])
    else
      (writeFiles env w, [])
  | none :: rest, w =>
    if w.m_currentFile.isEmpty then
      (writeFiles env (w.log (Event.saveAsChooser none)), rest)
    else
      (writeFiles env w, none :: rest)
  | some p :: rest, w =>
    if w.m_currentFile.isEmpty then
      let r := saveFilesTriggered env rest
        ({ w with m_currentFile := p }.log (Event.saveAsChooser (some p)))
      (writeFiles env r.1, r.2)
    else
      (writeFiles env w, some p :: rest)

/-- The slot `MainWindow::saveFilesAsTriggered` (lines 200-210): when the dialog is
accepted, `m_currentFile` becomes the selected file and `saveFilesTriggered`
runs; when it is rejected nothing else happens. -/
def saveFilesAsTriggered (env : Env) :
    List (Option QString) → World → World × List (Option QString)
  | [], w => (w.log (Event.saveAsChooser none), [])
  | none :: rest, w => (w.log (Event.saveAsChooser none), rest)
  | some p :: rest, w =>
    saveFilesTriggered env rest
      ({ w with m_currentFile := p }.log (Event.saveAsChooser (some p)))

/-! ## New and Load (lines 141-147, 212-252) -/

/-- The call `mbox.exec()`: the next scripted button; Cancel when the script is empty. -/
def mboxExec (u : User) : Button × User :=
  match u.mbox with
  | [] => (Button.Cancel, u)
  | b :: rest => (b, { u with mbox := rest })

/-- Lines 250-251: `m_currentFile.clear(); m_editTab->newProgram();`. -/
def clearAndReset (w : World) : World :=
  { w with m_currentFile := [], m_editTab := w.m_editTab.newProgram }.log Event.editorNewProgram

/-- The slot `MainWindow::newProgramTriggered` (lines 212-252).  The window title and
the texts of the message box do not steer the control flow and are left out. -/
def newProgramTriggered (env : Env) (u : User) (w : World) : World × User :=
  if !w.m_editTab.getAssemblyText.isEmpty && w.m_currentFile.isEmpty then
    let ret := mboxExec u
    let w1 := w.log (Event.prompt ret.1)
    match ret.1 with
    | Button.Yes =>
      let r := saveFilesAsTriggered env ret.2.saveDlg w1
      (clearAndReset r.1, { ret.2 with saveDlg := r.2 })
    | Button.No => (clearAndReset w1, ret.2)
    | Button.Cancel => (w1, ret.2)
  else if !w.m_currentFile.isEmpty then
    let ret := mboxExec u
    let w1 := w.log (Event.prompt ret.1)
    match ret.1 with
    | Button.Yes =>
      let r := saveFilesTriggered env ret.2.saveDlg w1
      (clearAndReset r.1, { ret.2 with saveDlg := r.2 })
    | Button.No => (clearAndReset w1, ret.2)
    | Button.Cancel => (w1, ret.2)
  else
    (clearAndReset w, u)

/-- The slot `MainWindow::loadFileTriggered` (lines 141-147): a rejected dialog returns
at once; an accepted one hands its parameters to the edit tab. -/
def loadFileTriggered (env : Env) (u : User) (w : World) : World × User :=
  match u.loadDlg with
  | [] => (w.log (Event.loadChooser none), u)
  | none :: rest => (w.log (Event.loadChooser none), { u with loadDlg := rest })
  | some prm :: rest =>
    (({ w with m_editTab := env.loadFile prm w.m_editTab }.log
        (Event.loadChooser (some prm))).log (Event.editorLoadFile prm),
      { u with loadDlg := rest })

/-! ## The menu actions (lines 76-116) -/

/-- The four file actions wired up in `setupMenus`: "New Program",
"Load Program", "Save File" and "Save File As...". -/
inductive Action where
  | New
  | Open
  | Save
  | SaveAs
  deriving DecidableEq, Repr

/-- Trigger one action: the slot connected to it runs to completion. -/
def step (env : Env) (a : Action) (s : World × User) : World × User :=
  match a with
  | Action.New => newProgramTriggered env s.2 s.1
  | Action.Open => loadFileTriggered env s.2 s.1
  | Action.Save =>
    let r := saveFilesTriggered env s.2.saveDlg s.1
    (r.1, { s.2 with saveDlg := r.2 })
  | Action.SaveAs =>
    let r := saveFilesAsTriggered env s.2.saveDlg s.1
    (r.1, { s.2 with saveDlg := r.2 })

/-- Trigger a sequence of actions, one after the other. -/
def run (env : Env) (acts : List Action) (s : World × User) : World × User :=
  acts.foldl (fun st a => step env a st) s

/-- The state at application start: no current file, nothing has happened. -/
def initialWorld (tab : EditTab) : World :=
  { m_currentFile := [], m_editTab := tab, trace := [] }

/-! ## Vocabulary for the statements -/

/-- The events a save can produce: the chooser and the two kinds of write. -/
def Event.isSaveEvent : Event → Bool
  | Event.saveAsChooser _ => true
  | Event.writeText _ _ _ => true
  | Event.writeBinary _ _ _ => true
  | _ => false

/-- What every run of Save or Save As does to the window: the editor is left
alone, the trace grows by chooser and write events only, and `m_currentFile`
either stays or becomes a path confirmed in one of those chooser events. -/
def SaveStep (w w2 : World) : Prop :=
  w2.m_editTab = w.m_editTab ∧
  ∃ evs, w2.trace = w.trace ++ evs ∧ (∀ e ∈ evs, e.isSaveEvent = true) ∧
    (w2.m_currentFile = w.m_currentFile ∨
      Event.saveAsChooser (some w2.m_currentFile) ∈ evs)

/-! ## Sample data used in the concrete checks -/

/-- An environment in which every named file can be written and loading a file
leaves the editor as it is. -/
def permissiveEnv : Env :=
  { writable := fun _ => true, loadFile := fun _ t => t }

/-- An editor holding a one-line program and two bytes of binary. -/
def sampleTab : EditTab :=
  { assemblyText := "nop".toList, binaryData := [19, 0] }

/-- A window whose editor holds the sample program and that has no current
file. -/
def untitledWorld : World := initialWorld sampleTab

/-- A window whose editor holds the sample program, saved as `prog.s`. -/
def savedWorld : World :=
  { m_currentFile := "prog.s".toList, m_editTab := sampleTab, trace := [] }

/-- A user who answers the prompt with Yes and has no further answers. -/
def yesUser : User := { mbox := [Button.Yes], saveDlg := [], loadDlg := [] }

/-- A window with an empty editor and no current file. -/
def emptyWorld : World := initialWorld { assemblyText := [], binaryData := [] }

/-! ## Facts about paths -/

theorem lastIndexOf_of_not_mem (s : QString) (c : Char) (h : c ∉ s) :
    lastIndexOf s c = -1 := by
  induction s with
  | nil => rfl
  | cons x xs ih =>
    have hx : ¬ x = c := fun e => h (by simp [e])
    have hxs : c ∉ xs := fun m => h (List.mem_cons_of_mem _ m)
    simp [lastIndexOf, ih hxs, hx]

theorem lastIndexOf_append_cons (a b : QString) (c : Char) (h : c ∉ b) :
    lastIndexOf (a ++ c :: b) c = a.length := by
  induction a with
  | nil => simp [lastIndexOf, lastIndexOf_of_not_mem b c h]
  | cons x xs ih => simp [lastIndexOf, ih]

theorem removeFileExt_append_dot (a b : QString) (h : '.' ∉ b) :
    removeFileExt (a ++ '.' :: b) = a := by
  have hlen : ¬ ((a.length : Int) + ((b.length : Int) + 1) ≤ (a.length : Int)) := by omega
  simp [removeFileExt, left, lastIndexOf_append_cons a b '.' h, hlen]

theorem removeFileExt_of_no_dot (s : QString) (h : '.' ∉ s) : removeFileExt s = s := by
  simp [removeFileExt, left, lastIndexOf_of_not_mem s '.' h]

theorem exists_last_occurrence (c : Char) (s : QString) (h : c ∈ s) :
    ∃ a b, s = a ++ c :: b ∧ c ∉ b := by
  induction s with
  | nil => simp at h
  | cons x xs ih =>
    by_cases hxs : c ∈ xs
    · obtain ⟨a, b, hab, hb⟩ := ih hxs
      exact ⟨x :: a, b, by simp [hab], hb⟩
    · have hx : c = x := by
        rcases List.mem_cons.mp h with e | m
        · exact e
        · exact absurd m hxs
      exact ⟨[], xs, by simp [hx], hxs⟩

theorem derivedBinaryPath_eq_self_iff (p : QString) :
    derivedBinaryPath p = p ↔ ".bin".toList <:+ p := by
  constructor
  · intro h
    exact ⟨removeFileExt p, h⟩
  · rintro ⟨t, ht⟩
    have hb : '.' ∉ ['b', 'i', 'n'] := by decide
    have hp : p = t ++ '.' :: ['b', 'i', 'n'] := ht.symm
    rw [derivedBinaryPath, hp, removeFileExt_append_dot t _ hb]
    rfl

/-! ## Facts about Save and Save As -/

@[simp] theorem log_m_currentFile (w : World) (e : Event) :
    (w.log e).m_currentFile = w.m_currentFile := rfl

@[simp] theorem log_m_editTab (w : World) (e : Event) :
    (w.log e).m_editTab = w.m_editTab := rfl

@[simp] theorem log_trace (w : World) (e : Event) :
    (w.log e).trace = w.trace ++ [e] := rfl

@[simp] theorem writeFiles_m_currentFile (env : Env) (w : World) :
    (writeFiles env w).m_currentFile = w.m_currentFile := rfl

@[simp] theorem writeFiles_m_editTab (env : Env) (w : World) :
    (writeFiles env w).m_editTab = w.m_editTab := rfl

theorem writeFiles_trace (env : Env) (w : World) :
    (writeFiles env w).trace = w.trace ++
      [Event.writeText w.m_currentFile w.m_editTab.assemblyText
          (openWriteOnly env w.m_currentFile),
        Event.writeBinary (derivedBinaryPath w.m_currentFile) w.m_editTab.binaryData
          (openWriteOnly env (derivedBinaryPath w.m_currentFile))] := by
  simp [writeFiles, writeTextFile, writeBinaryFile, derivedBinaryPath,
    EditTab.getAssemblyText, EditTab.getBinaryData]

/-- With a current file, `saveFilesTriggered` is just the two writes. -/
theorem saveFilesTriggered_of_path (env : Env) (dlg : List (Option QString)) (w : World)
    (h : w.m_currentFile ≠ []) :
    saveFilesTriggered env dlg w = (writeFiles env w, dlg) := by
  have he : w.m_currentFile.isEmpty = false := by
    cases hc : w.m_currentFile with
    | nil => exact absurd hc h
    | cons x xs => rfl
  match dlg with
  | [] => simp [saveFilesTriggered, he]
  | none :: rest => simp [saveFilesTriggered, he]
  | some p :: rest => simp [saveFilesTriggered, he]

/-- A rejected Save As chooser changes nothing and writes nothing. -/
theorem saveFilesAsTriggered_rejected (env : Env) (rest : List (Option QString)) (w : World) :
    saveFilesAsTriggered env (none :: rest) w = (w.log (Event.saveAsChooser none), rest) := rfl

/-- Save without a current file, chooser rejected: the two writes still run, on
the empty `m_currentFile`. -/
theorem saveFilesTriggered_unset_rejected (env : Env) (rest : List (Option QString))
    (w : World) (h : w.m_currentFile = []) :
    saveFilesTriggered env (none :: rest) w =
      (writeFiles env (w.log (Event.saveAsChooser none)), rest) := by
  simp [saveFilesTriggered, h]

/-- Save without a current file, chooser accepted with a non-empty path: the
two writes run twice. -/
theorem saveFilesTriggered_unset_accepted (env : Env) (rest : List (Option QString))
    (w : World) (p : QString) (h : w.m_currentFile = []) (hp : p ≠ []) :
    saveFilesTriggered env (some p :: rest) w =
      (writeFiles env (writeFiles env
        ({ w with m_currentFile := p }.log (Event.saveAsChooser (some p)))), rest) := by
  have hs := saveFilesTriggered_of_path env rest
    ({ w with m_currentFile := p }.log (Event.saveAsChooser (some p))) hp
  simp [saveFilesTriggered, h, hs]

/-- The body of `saveFilesTriggered` as the source has it (lines 180-198): if
`m_currentFile` is empty call `saveFilesAsTriggered()`, then, in every case, do
the two writes. -/
theorem saveFilesTriggered_eq (env : Env) (dlg : List (Option QString)) (w : World) :
    saveFilesTriggered env dlg w =
      (writeFiles env
          (if w.m_currentFile.isEmpty then saveFilesAsTriggered env dlg w else (w, dlg)).1,
        (if w.m_currentFile.isEmpty then saveFilesAsTriggered env dlg w else (w, dlg)).2) := by
  match dlg with
  | [] => by_cases he : w.m_currentFile.isEmpty <;> simp [saveFilesTriggered, saveFilesAsTriggered, he]
  | none :: rest =>
    by_cases he : w.m_currentFile.isEmpty <;> simp [saveFilesTriggered, saveFilesAsTriggered, he]
  | some p :: rest =>
    by_cases he : w.m_currentFile.isEmpty <;> simp [saveFilesTriggered, saveFilesAsTriggered, he]

theorem SaveStep.trans {a b c : World} (h1 : SaveStep a b) (h2 : SaveStep b c) :
    SaveStep a c := by
  obtain ⟨e1, evs1, t1, s1, c1⟩ := h1
  obtain ⟨e2, evs2, t2, s2, c2⟩ := h2
  refine ⟨e2.trans e1, evs1 ++ evs2, by simp [t2, t1], ?_, ?_⟩
  · intro e he
    rcases List.mem_append.mp he with h | h
    · exact s1 e h
    · exact s2 e h
  · rcases c2 with h | h
    · rcases c1 with g | g
      · exact Or.inl (h.trans g)
      · exact Or.inr (List.mem_append_left _ (h ▸ g))
    · exact Or.inr (List.mem_append_right _ h)

theorem SaveStep.writeFiles (env : Env) (w : World) : SaveStep w (writeFiles env w) :=
  ⟨rfl, _, writeFiles_trace env w, by simp [Event.isSaveEvent], Or.inl rfl⟩

theorem SaveStep.rejected (w : World) : SaveStep w (w.log (Event.saveAsChooser none)) :=
  ⟨rfl, [Event.saveAsChooser none], rfl, by simp [Event.isSaveEvent], Or.inl rfl⟩

theorem SaveStep.accepted (w : World) (p : QString) :
    SaveStep w ({ w with m_currentFile := p }.log (Event.saveAsChooser (some p))) :=
  ⟨rfl, [Event.saveAsChooser (some p)], rfl, by simp [Event.isSaveEvent],
    Or.inr (by simp)⟩

theorem saveFilesTriggered_saveStep (env : Env) (dlg : List (Option QString)) :
    ∀ w : World, SaveStep w (saveFilesTriggered env dlg w).1 := by
  induction dlg with
  | nil =>
    intro w
    by_cases he : w.m_currentFile.isEmpty
    · simpa [saveFilesTriggered, he] using
        (SaveStep.rejected w).trans (SaveStep.writeFiles env _)
    · simpa [saveFilesTriggered, he] using SaveStep.writeFiles env w
  | cons a rest ih =>
    intro w
    by_cases he : w.m_currentFile.isEmpty
    · cases a with
      | none =>
        simpa [saveFilesTriggered, he] using
          (SaveStep.rejected w).trans (SaveStep.writeFiles env _)
      | some p =>
        simpa [saveFilesTriggered, he] using
          ((SaveStep.accepted w p).trans (ih _)).trans (SaveStep.writeFiles env _)
    · cases a with
      | none => simpa [saveFilesTriggered, he] using SaveStep.writeFiles env w
      | some p => simpa [saveFilesTriggered, he] using SaveStep.writeFiles env w

theorem saveFilesAsTriggered_saveStep (env : Env) (dlg : List (Option QString)) (w : World) :
    SaveStep w (saveFilesAsTriggered env dlg w).1 := by
  match dlg with
  | [] => simpa [saveFilesAsTriggered] using SaveStep.rejected w
  | none :: rest => simpa [saveFilesAsTriggered] using SaveStep.rejected w
  | some p :: rest =>
    simpa [saveFilesAsTriggered] using
      (SaveStep.accepted w p).trans (saveFilesTriggered_saveStep env rest _)

/-! ## Facts about New -/

theorem mboxExec_saveDlg (u : User) : (mboxExec u).2.saveDlg = u.saveDlg := by
  unfold mboxExec; cases u.mbox <;> rfl

theorem mboxExec_loadDlg (u : User) : (mboxExec u).2.loadDlg = u.loadDlg := by
  unfold mboxExec; cases u.mbox <;> rfl

theorem isEmpty_eq_false_of_ne {α : Type} (l : List α) (h : l ≠ []) : l.isEmpty = false := by
  cases l with
  | nil => exact absurd rfl h
  | cons x xs => rfl

/-- No prompt: the text is empty and there is no current file. -/
theorem newProgramTriggered_skip (env : Env) (u : User) (w : World)
    (ht : w.m_editTab.getAssemblyText = []) (hc : w.m_currentFile = []) :
    newProgramTriggered env u w = (clearAndReset w, u) := by
  simp [newProgramTriggered, ht, hc]

/-- Unsaved text, no current file (lines 216-231). -/
theorem newProgramTriggered_untitled (env : Env) (u : User) (w : World)
    (ht : w.m_editTab.getAssemblyText ≠ []) (hc : w.m_currentFile = []) :
    newProgramTriggered env u w =
      match (mboxExec u).1 with
      | Button.Yes =>
        (clearAndReset
            (saveFilesAsTriggered env (mboxExec u).2.saveDlg (w.log (Event.prompt Button.Yes))).1,
          { (mboxExec u).2 with
            saveDlg :=
              (saveFilesAsTriggered env (mboxExec u).2.saveDlg
                (w.log (Event.prompt Button.Yes))).2 })
      | Button.No => (clearAndReset (w.log (Event.prompt Button.No)), (mboxExec u).2)
      | Button.Cancel => (w.log (Event.prompt Button.Cancel), (mboxExec u).2) := by
  have h1 := isEmpty_eq_false_of_ne _ ht
  cases hb : (mboxExec u).1 <;> simp [newProgramTriggered, h1, hc, hb]

/-- A current file is set (lines 232-249). -/
theorem newProgramTriggered_saved (env : Env) (u : User) (w : World)
    (hc : w.m_currentFile ≠ []) :
    newProgramTriggered env u w =
      match (mboxExec u).1 with
      | Button.Yes =>
        (clearAndReset (writeFiles env (w.log (Event.prompt Button.Yes))),
          (mboxExec u).2)
      | Button.No => (clearAndReset (w.log (Event.prompt Button.No)), (mboxExec u).2)
      | Button.Cancel => (w.log (Event.prompt Button.Cancel), (mboxExec u).2) := by
  have h1 := isEmpty_eq_false_of_ne _ hc
  have hs : ∀ b, saveFilesTriggered env (mboxExec u).2.saveDlg (w.log (Event.prompt b)) =
      (writeFiles env (w.log (Event.prompt b)), (mboxExec u).2.saveDlg) :=
    fun b => saveFilesTriggered_of_path env _ _ (by simpa using hc)
  cases hb : (mboxExec u).1 <;> simp [newProgramTriggered, h1, hb, hs]

@[simp] theorem clearAndReset_m_currentFile (w : World) :
    (clearAndReset w).m_currentFile = [] := rfl

@[simp] theorem clearAndReset_m_editTab (w : World) :
    (clearAndReset w).m_editTab = w.m_editTab.newProgram := rfl

@[simp] theorem clearAndReset_trace (w : World) :
    (clearAndReset w).trace = w.trace ++ [Event.editorNewProgram] := rfl

/-- The events of one run of `newProgramTriggered`: either the reset alone
(no prompt), or the prompt, then chooser and write events only, then the reset
unless the prompt was cancelled. -/
theorem newProgramTriggered_events (env : Env) (u : User) (w : World) :
    ∃ evs, (newProgramTriggered env u w).1.trace = w.trace ++ evs ∧
      ((w.m_editTab.getAssemblyText = [] ∧ w.m_currentFile = [] ∧
          evs = [Event.editorNewProgram]) ∨
        ((w.m_editTab.getAssemblyText ≠ [] ∨ w.m_currentFile ≠ []) ∧
          ∃ sv, (∀ e ∈ sv, e.isSaveEvent = true) ∧
            evs = Event.prompt (mboxExec u).1 ::
              (sv ++ if (mboxExec u).1 = Button.Cancel then [] else [Event.editorNewProgram]))) := by
  by_cases hc : w.m_currentFile = []
  · by_cases ht : w.m_editTab.getAssemblyText = []
    · exact ⟨[Event.editorNewProgram], by rw [newProgramTriggered_skip env u w ht hc]; rfl,
        Or.inl ⟨ht, hc, rfl⟩⟩
    · rw [newProgramTriggered_untitled env u w ht hc]
      cases hb : (mboxExec u).1 with
      | Yes =>
        obtain ⟨-, sv, hsv, hall, -⟩ :=
          saveFilesAsTriggered_saveStep env (mboxExec u).2.saveDlg (w.log (Event.prompt Button.Yes))
        exact ⟨Event.prompt Button.Yes :: (sv ++ [Event.editorNewProgram]), by simp [hsv],
          Or.inr ⟨Or.inl ht, sv, hall, by simp⟩⟩
      | No =>
        exact ⟨[Event.prompt Button.No, Event.editorNewProgram], by simp,
          Or.inr ⟨Or.inl ht, [], by simp, by simp⟩⟩
      | Cancel =>
        exact ⟨[Event.prompt Button.Cancel], by simp, Or.inr ⟨Or.inl ht, [], by simp, by simp⟩⟩
  · rw [newProgramTriggered_saved env u w hc]
    cases hb : (mboxExec u).1 with
    | Yes =>
      refine ⟨Event.prompt Button.Yes ::
          ([Event.writeText w.m_currentFile w.m_editTab.assemblyText
              (openWriteOnly env w.m_currentFile),
            Event.writeBinary (derivedBinaryPath w.m_currentFile) w.m_editTab.binaryData
              (openWriteOnly env (derivedBinaryPath w.m_currentFile))] ++
            [Event.editorNewProgram]), by simp [writeFiles_trace],
        Or.inr ⟨Or.inr hc,
          [Event.writeText w.m_currentFile w.m_editTab.assemblyText
              (openWriteOnly env w.m_currentFile),
            Event.writeBinary (derivedBinaryPath w.m_currentFile) w.m_editTab.binaryData
              (openWriteOnly env (derivedBinaryPath w.m_currentFile))], ?_, by simp⟩⟩
      simp [Event.isSaveEvent]
    | No =>
      exact ⟨[Event.prompt Button.No, Event.editorNewProgram], by simp,
        Or.inr ⟨Or.inr hc, [], by simp, by simp⟩⟩
    | Cancel =>
      exact ⟨[Event.prompt Button.Cancel], by simp, Or.inr ⟨Or.inr hc, [], by simp, by simp⟩⟩

/-- Unless the prompt is cancelled, `newProgramTriggered` ends at lines 250-251. -/
theorem newProgramTriggered_state (env : Env) (u : User) (w : World)
    (hgo : (w.m_editTab.getAssemblyText = [] ∧ w.m_currentFile = []) ∨
      (mboxExec u).1 ≠ Button.Cancel) :
    (newProgramTriggered env u w).1.m_currentFile = [] ∧
      (newProgramTriggered env u w).1.m_editTab = w.m_editTab.newProgram := by
  by_cases hc : w.m_currentFile = []
  · by_cases ht : w.m_editTab.getAssemblyText = []
    · rw [newProgramTriggered_skip env u w ht hc]; exact ⟨rfl, rfl⟩
    · have hb : (mboxExec u).1 ≠ Button.Cancel := by
        rcases hgo with h | h
        · exact absurd h.1 ht
        · exact h
      rw [newProgramTriggered_untitled env u w ht hc]
      cases hb2 : (mboxExec u).1 with
      | Yes => exact ⟨rfl, rfl⟩
      | No => exact ⟨rfl, rfl⟩
      | Cancel => exact absurd hb2 hb
  · have hb : (mboxExec u).1 ≠ Button.Cancel := by
      rcases hgo with h | h
      · exact absurd h.2 hc
      · exact h
    rw [newProgramTriggered_saved env u w hc]
    cases hb2 : (mboxExec u).1 with
    | Yes => exact ⟨rfl, rfl⟩
    | No => exact ⟨rfl, rfl⟩
    | Cancel => exact absurd hb2 hb

/-- A cancelled prompt: only the prompt itself has happened. -/
theorem newProgramTriggered_cancelled (env : Env) (u : User) (w : World)
    (hshown : w.m_editTab.getAssemblyText ≠ [] ∨ w.m_currentFile ≠ [])
    (hc : (mboxExec u).1 = Button.Cancel) :
    newProgramTriggered env u w = (w.log (Event.prompt Button.Cancel), (mboxExec u).2) := by
  by_cases hf : w.m_currentFile = []
  · have ht : w.m_editTab.getAssemblyText ≠ [] := by
      rcases hshown with h | h
      · exact h
      · exact absurd hf h
    rw [newProgramTriggered_untitled env u w ht hf, hc]
  · rw [newProgramTriggered_saved env u w hf, hc]

/-! ## The current file along a run -/

theorem confirmed_of_saveStep {w w2 : World} (h : SaveStep w w2)
    (hw : w.m_currentFile = [] ∨ Event.saveAsChooser (some w.m_currentFile) ∈ w.trace) :
    w2.m_currentFile = [] ∨ Event.saveAsChooser (some w2.m_currentFile) ∈ w2.trace := by
  obtain ⟨-, evs, ht, -, hcur⟩ := h
  rcases hcur with hs | hn
  · rcases hw with h0 | hm
    · exact Or.inl (hs.trans h0)
    · exact Or.inr (by rw [ht, hs]; exact List.mem_append_left _ hm)
  · exact Or.inr (by rw [ht]; exact List.mem_append_right _ hn)

theorem confirmed_of_log (w : World) (e : Event)
    (hw : w.m_currentFile = [] ∨ Event.saveAsChooser (some w.m_currentFile) ∈ w.trace) :
    (w.log e).m_currentFile = [] ∨
      Event.saveAsChooser (some (w.log e).m_currentFile) ∈ (w.log e).trace := by
  rcases hw with h | h
  · exact Or.inl h
  · exact Or.inr (List.mem_append_left _ h)

theorem newProgramTriggered_confirmed (env : Env) (u : User) (w : World)
    (hw : w.m_currentFile = [] ∨ Event.saveAsChooser (some w.m_currentFile) ∈ w.trace) :
    (newProgramTriggered env u w).1.m_currentFile = [] ∨
      Event.saveAsChooser (some (newProgramTriggered env u w).1.m_currentFile) ∈
        (newProgramTriggered env u w).1.trace := by
  by_cases hgo : (w.m_editTab.getAssemblyText = [] ∧ w.m_currentFile = []) ∨
      (mboxExec u).1 ≠ Button.Cancel
  · exact Or.inl (newProgramTriggered_state env u w hgo).1
  · have hc : (mboxExec u).1 = Button.Cancel := by
      by_contra hne
      exact hgo (Or.inr hne)
    have hshown : w.m_editTab.getAssemblyText ≠ [] ∨ w.m_currentFile ≠ [] := by
      by_contra hno
      push_neg at hno
      exact hgo (Or.inl hno)
    rw [newProgramTriggered_cancelled env u w hshown hc]
    exact confirmed_of_log _ _ hw

theorem loadFileTriggered_m_currentFile (env : Env) (u : User) (w : World) :
    (loadFileTriggered env u w).1.m_currentFile = w.m_currentFile := by
  unfold loadFileTriggered
  split <;> rfl

theorem loadFileTriggered_trace (env : Env) (u : User) (w : World) :
    ∃ evs, (loadFileTriggered env u w).1.trace = w.trace ++ evs := by
  unfold loadFileTriggered
  split
  · exact ⟨_, rfl⟩
  · exact ⟨_, rfl⟩
  · rename_i prm rest _
    exact ⟨[Event.loadChooser (some prm), Event.editorLoadFile prm], by simp⟩

theorem loadFileTriggered_confirmed (env : Env) (u : User) (w : World)
    (hw : w.m_currentFile = [] ∨ Event.saveAsChooser (some w.m_currentFile) ∈ w.trace) :
    (loadFileTriggered env u w).1.m_currentFile = [] ∨
      Event.saveAsChooser (some (loadFileTriggered env u w).1.m_currentFile) ∈
        (loadFileTriggered env u w).1.trace := by
  obtain ⟨evs, ht⟩ := loadFileTriggered_trace env u w
  rw [loadFileTriggered_m_currentFile, ht]
  rcases hw with h | h
  · exact Or.inl h
  · exact Or.inr (List.mem_append_left _ h)

theorem step_confirmed (env : Env) (a : Action) (s : World × User)
    (hw : s.1.m_currentFile = [] ∨ Event.saveAsChooser (some s.1.m_currentFile) ∈ s.1.trace) :
    (step env a s).1.m_currentFile = [] ∨
      Event.saveAsChooser (some (step env a s).1.m_currentFile) ∈ (step env a s).1.trace := by
  cases a with
  | New => exact newProgramTriggered_confirmed env s.2 s.1 hw
  | Open => exact loadFileTriggered_confirmed env s.2 s.1 hw
  | Save => exact confirmed_of_saveStep (saveFilesTriggered_saveStep env _ _) hw
  | SaveAs => exact confirmed_of_saveStep (saveFilesAsTriggered_saveStep env _ _) hw

theorem run_confirmed (env : Env) (acts : List Action) :
    ∀ s : World × User,
      (s.1.m_currentFile = [] ∨ Event.saveAsChooser (some s.1.m_currentFile) ∈ s.1.trace) →
      ((run env acts s).1.m_currentFile = [] ∨
        Event.saveAsChooser (some (run env acts s).1.m_currentFile) ∈ (run env acts s).1.trace) := by
  induction acts with
  | nil => intro s hs; exact hs
  | cons a rest ih =>
    intro s hs
    exact ih (step env a s) (step_confirmed env a s hs)

/-! ## The claims -/

/-- C3: for every text path `p` that contains a `'.'`, `p` splits as
`a ++ "." ++ b` with no `'.'` in `b` (so `a` is what stands before the last
`'.'`), `removeFileExt p` is `a` and the binary path
`removeFileExt(p) + ".bin"` is `a ++ ".bin"`; in particular `prog.s` gives
`prog.bin` and `archive.tar.s` gives `archive.tar.bin`. -/
theorem derivedBinaryPath_strips_last_extension (p : QString) (h : '.' ∈ p) :
    (∃ a b, p = a ++ '.' :: b ∧ '.' ∉ b ∧ removeFileExt p = a ∧
      derivedBinaryPath p = a ++ ".bin".toList) ∧
    derivedBinaryPath "prog.s".toList = "prog.bin".toList ∧
    derivedBinaryPath "archive.tar.s".toList = "archive.tar.bin".toList := by
  refine ⟨?_, by decide, by decide⟩
  obtain ⟨a, b, hab, hb⟩ := exists_last_occurrence '.' p h
  refine ⟨a, b, hab, hb, ?_, ?_⟩
  · rw [hab]; exact removeFileExt_append_dot a b hb
  · rw [derivedBinaryPath, hab, removeFileExt_append_dot a b hb]; rfl

/-- The statement of C3 at the path `archive.tar.s`. -/
theorem derivedBinaryPath_strips_last_extension_witness :
    '.' ∈ "archive.tar.s".toList ∧
    ((∃ a b, "archive.tar.s".toList = a ++ '.' :: b ∧ '.' ∉ b ∧
        removeFileExt "archive.tar.s".toList = a ∧
        derivedBinaryPath "archive.tar.s".toList = a ++ ".bin".toList) ∧
      derivedBinaryPath "prog.s".toList = "prog.bin".toList ∧
      derivedBinaryPath "archive.tar.s".toList = "archive.tar.bin".toList) :=
  ⟨by decide, derivedBinaryPath_strips_last_extension "archive.tar.s".toList (by decide)⟩

/-- C5: with `m_currentFile` set, `saveFilesTriggered` consumes no dialog
answer, leaves `m_currentFile` and the editor as they were, and adds exactly two
events to the trace, in this order: the write of the editor text to
`m_currentFile` and the write of the editor binary to
`removeFileExt(m_currentFile) + ".bin"`.  The second write is attempted whatever
the outcome of opening the first file (the environment is arbitrary). -/
theorem saveFilesTriggered_with_current_file (env : Env) (dlg : List (Option QString))
    (w : World) (h : w.m_currentFile ≠ []) :
    (saveFilesTriggered env dlg w).2 = dlg ∧
    (saveFilesTriggered env dlg w).1.m_currentFile = w.m_currentFile ∧
    (saveFilesTriggered env dlg w).1.m_editTab = w.m_editTab ∧
    (saveFilesTriggered env dlg w).1.trace = w.trace ++
      [Event.writeText w.m_currentFile w.m_editTab.getAssemblyText
          (openWriteOnly env w.m_currentFile),
        Event.writeBinary (removeFileExt w.m_currentFile ++ ".bin".toList)
          w.m_editTab.getBinaryData
          (openWriteOnly env (removeFileExt w.m_currentFile ++ ".bin".toList))] := by
  rw [saveFilesTriggered_of_path env dlg w h]
  exact ⟨rfl, rfl, rfl, writeFiles_trace env w⟩

/-- The statement of C5 for the sample program saved as `prog.s`, with a
chooser answer pending that must stay unused. -/
theorem saveFilesTriggered_with_current_file_witness :
    savedWorld.m_currentFile ≠ [] ∧
    ((saveFilesTriggered permissiveEnv [some "other.s".toList] savedWorld).2 =
        [some "other.s".toList] ∧
      (saveFilesTriggered permissiveEnv [some "other.s".toList] savedWorld).1.m_currentFile =
        savedWorld.m_currentFile ∧
      (saveFilesTriggered permissiveEnv [some "other.s".toList] savedWorld).1.m_editTab =
        savedWorld.m_editTab ∧
      (saveFilesTriggered permissiveEnv [some "other.s".toList] savedWorld).1.trace =
        savedWorld.trace ++
          [Event.writeText savedWorld.m_currentFile savedWorld.m_editTab.getAssemblyText
              (openWriteOnly permissiveEnv savedWorld.m_currentFile),
            Event.writeBinary (removeFileExt savedWorld.m_currentFile ++ ".bin".toList)
              savedWorld.m_editTab.getBinaryData
              (openWriteOnly permissiveEnv
                (removeFileExt savedWorld.m_currentFile ++ ".bin".toList))]) :=
  ⟨by decide,
    saveFilesTriggered_with_current_file permissiveEnv [some "other.s".toList] savedWorld
      (by decide)⟩

/-- C2: whenever `newProgramTriggered` shows its prompt (the text is non-empty
or a current file is set) and the answer is Cancel, `m_currentFile` and the
editor are unchanged, the only event is the prompt itself (no write, no
chooser, no call of `newProgram()`), and no answer for a file dialog is used. -/
theorem newProgramTriggered_cancel_no_change (env : Env) (u : User) (w : World)
    (hshown : w.m_editTab.getAssemblyText ≠ [] ∨ w.m_currentFile ≠ [])
    (hc : (mboxExec u).1 = Button.Cancel) :
    (newProgramTriggered env u w).1.m_currentFile = w.m_currentFile ∧
    (newProgramTriggered env u w).1.m_editTab = w.m_editTab ∧
    (newProgramTriggered env u w).1.trace = w.trace ++ [Event.prompt Button.Cancel] ∧
    (newProgramTriggered env u w).2.saveDlg = u.saveDlg ∧
    (newProgramTriggered env u w).2.loadDlg = u.loadDlg := by
  rw [newProgramTriggered_cancelled env u w hshown hc]
  exact ⟨rfl, rfl, rfl, mboxExec_saveDlg u, mboxExec_loadDlg u⟩

/-- The statement of C2 for unsaved text without a current file and a user who
answers Cancel and would accept a chooser. -/
theorem newProgramTriggered_cancel_no_change_witness :
    (untitledWorld.m_editTab.getAssemblyText ≠ [] ∨ untitledWorld.m_currentFile ≠ []) ∧
    (mboxExec ⟨[Button.Cancel], [some "a.s".toList], []⟩).1 = Button.Cancel ∧
    ((newProgramTriggered permissiveEnv ⟨[Button.Cancel], [some "a.s".toList], []⟩
        untitledWorld).1.m_currentFile = untitledWorld.m_currentFile ∧
      (newProgramTriggered permissiveEnv ⟨[Button.Cancel], [some "a.s".toList], []⟩
        untitledWorld).1.m_editTab = untitledWorld.m_editTab ∧
      (newProgramTriggered permissiveEnv ⟨[Button.Cancel], [some "a.s".toList], []⟩
        untitledWorld).1.trace = untitledWorld.trace ++ [Event.prompt Button.Cancel] ∧
      (newProgramTriggered permissiveEnv ⟨[Button.Cancel], [some "a.s".toList], []⟩
        untitledWorld).2.saveDlg = (User.mk [Button.Cancel] [some "a.s".toList] []).saveDlg ∧
      (newProgramTriggered permissiveEnv ⟨[Button.Cancel], [some "a.s".toList], []⟩
        untitledWorld).2.loadDlg = (User.mk [Button.Cancel] [some "a.s".toList] []).loadDlg) :=
  ⟨by decide, by decide,
    newProgramTriggered_cancel_no_change permissiveEnv ⟨[Button.Cancel], [some "a.s".toList], []⟩
      untitledWorld (by decide) (by decide)⟩

/-- C6: `newProgramTriggered` shows its prompt exactly when `m_currentFile` is
set or the editor text is non-empty; with empty text and no current file it
goes straight to lines 250-251: the result has no current file, a reset editor
and the single new event `editorNewProgram`, and no answer of the user is
consumed. -/
theorem newProgramTriggered_prompt_iff (env : Env) (u : User) (w : World) :
    (∃ evs, (newProgramTriggered env u w).1.trace = w.trace ++ evs ∧
      ((∃ b, Event.prompt b ∈ evs) ↔
        (w.m_currentFile ≠ [] ∨ w.m_editTab.getAssemblyText ≠ []))) ∧
    (w.m_editTab.getAssemblyText = [] → w.m_currentFile = [] →
      newProgramTriggered env u w =
        ({ m_currentFile := [], m_editTab := w.m_editTab.newProgram,
           trace := w.trace ++ [Event.editorNewProgram] }, u)) := by
  constructor
  · obtain ⟨evs, ht, hcase⟩ := newProgramTriggered_events env u w
    refine ⟨evs, ht, ?_⟩
    rcases hcase with ⟨h1, h2, he⟩ | ⟨hshown, sv, -, he⟩
    · constructor
      · rintro ⟨b, hb⟩
        rw [he] at hb
        simp at hb
      · rintro (h | h)
        · exact absurd h2 h
        · exact absurd h1 h
    · constructor
      · intro _
        exact hshown.symm
      · intro _
        exact ⟨(mboxExec u).1, by rw [he]; exact List.mem_cons_self _ _⟩
  · intro ht hc
    rw [newProgramTriggered_skip env u w ht hc]
    rfl

/-- The second half of C6 on a window with an empty editor and no file, and a
user who would have answered Yes: no prompt, no answer used. -/
theorem newProgramTriggered_prompt_iff_witness :
    newProgramTriggered permissiveEnv yesUser emptyWorld =
      ({ m_currentFile := [], m_editTab := emptyWorld.m_editTab.newProgram,
         trace := emptyWorld.trace ++ [Event.editorNewProgram] }, yesUser) :=
  (newProgramTriggered_prompt_iff permissiveEnv yesUser emptyWorld).2 (by decide) (by decide)

/-- C7: when the prompt of `newProgramTriggered` is skipped or answered with
anything but Cancel, the run ends with `m_currentFile` empty and the editor
reset to the empty program, and `newProgram()` is called exactly once, as the
last event.  Answered No, the only events are the prompt and the reset (no
write).  Answered Yes with `m_currentFile` set, the events are the prompt, the
write of the old text to `m_currentFile`, the write of the old binary to the
derived path, and then the reset. -/
theorem newProgramTriggered_clears_and_resets (env : Env) (u : User) (w : World)
    (hgo : (w.m_editTab.getAssemblyText = [] ∧ w.m_currentFile = []) ∨
      (mboxExec u).1 ≠ Button.Cancel) :
    (newProgramTriggered env u w).1.m_currentFile = [] ∧
    (newProgramTriggered env u w).1.m_editTab = w.m_editTab.newProgram ∧
    (newProgramTriggered env u w).1.m_editTab.getAssemblyText = [] ∧
    (∃ evs, (newProgramTriggered env u w).1.trace = w.trace ++ evs ∧
      evs.count Event.editorNewProgram = 1 ∧
      evs.getLast? = some Event.editorNewProgram) ∧
    ((w.m_editTab.getAssemblyText ≠ [] ∨ w.m_currentFile ≠ []) →
      (mboxExec u).1 = Button.No →
      (newProgramTriggered env u w).1.trace =
        w.trace ++ [Event.prompt Button.No, Event.editorNewProgram]) ∧
    (w.m_currentFile ≠ [] → (mboxExec u).1 = Button.Yes →
      (newProgramTriggered env u w).1.trace = w.trace ++
        [Event.prompt Button.Yes,
          Event.writeText w.m_currentFile w.m_editTab.getAssemblyText
            (openWriteOnly env w.m_currentFile),
          Event.writeBinary (removeFileExt w.m_currentFile ++ ".bin".toList)
            w.m_editTab.getBinaryData
            (openWriteOnly env (removeFileExt w.m_currentFile ++ ".bin".toList)),
          Event.editorNewProgram]) := by
  obtain ⟨hcur, htab⟩ := newProgramTriggered_state env u w hgo
  refine ⟨hcur, htab, by rw [htab]; rfl, ?_, ?_, ?_⟩
  · obtain ⟨evs, ht, hcase⟩ := newProgramTriggered_events env u w
    refine ⟨evs, ht, ?_⟩
    rcases hcase with ⟨-, -, he⟩ | ⟨hshown, sv, hsv, he⟩
    · rw [he]; exact ⟨by decide, rfl⟩
    · have hb : (mboxExec u).1 ≠ Button.Cancel := by
        rcases hgo with h | h
        · rcases hshown with g | g
          · exact absurd h.1 g
          · exact absurd h.2 g
        · exact h
      have hnot : Event.editorNewProgram ∉ sv := fun hm => by
        have := hsv _ hm
        simp [Event.isSaveEvent] at this
      have hcount : sv.count Event.editorNewProgram = 0 := List.count_eq_zero.mpr hnot
      rw [he, if_neg hb]
      constructor
      · rw [List.count_cons, List.count_append, hcount]
        simp
      · rw [← List.cons_append, List.getLast?_append]
        rfl
  · intro hshown hno
    by_cases hf : w.m_currentFile = []
    · have htxt : w.m_editTab.getAssemblyText ≠ [] := by
        rcases hshown with h | h
        · exact h
        · exact absurd hf h
      rw [newProgramTriggered_untitled env u w htxt hf, hno]
      simp
    · rw [newProgramTriggered_saved env u w hf, hno]
      simp
  · intro hf hyes
    rw [newProgramTriggered_saved env u w hf, hyes]
    simp [writeFiles_trace, derivedBinaryPath, EditTab.getAssemblyText, EditTab.getBinaryData]
    exact ⟨rfl, rfl⟩

/-- The statement of C7 for the sample program saved as `prog.s` and a user
who answers Yes. -/
theorem newProgramTriggered_clears_and_resets_witness :
    ((savedWorld.m_editTab.getAssemblyText = [] ∧ savedWorld.m_currentFile = []) ∨
      (mboxExec yesUser).1 ≠ Button.Cancel) ∧
    savedWorld.m_currentFile ≠ [] ∧ (mboxExec yesUser).1 = Button.Yes ∧
    (newProgramTriggered permissiveEnv yesUser savedWorld).1.m_currentFile = [] ∧
    (newProgramTriggered permissiveEnv yesUser savedWorld).1.m_editTab.getAssemblyText = [] ∧
    (newProgramTriggered permissiveEnv yesUser savedWorld).1.trace = savedWorld.trace ++
      [Event.prompt Button.Yes,
        Event.writeText savedWorld.m_currentFile savedWorld.m_editTab.getAssemblyText
          (openWriteOnly permissiveEnv savedWorld.m_currentFile),
        Event.writeBinary (removeFileExt savedWorld.m_currentFile ++ ".bin".toList)
          savedWorld.m_editTab.getBinaryData
          (openWriteOnly permissiveEnv (removeFileExt savedWorld.m_currentFile ++ ".bin".toList)),
        Event.editorNewProgram] :=
  ⟨by decide, by decide, by decide,
    (newProgramTriggered_clears_and_resets permissiveEnv yesUser savedWorld (by decide)).1,
    (newProgramTriggered_clears_and_resets permissiveEnv yesUser savedWorld (by decide)).2.2.1,
    (newProgramTriggered_clears_and_resets permissiveEnv yesUser savedWorld
      (by decide)).2.2.2.2.2 (by decide) (by decide)⟩

/-- C4: from the initial state, after any sequence of New / Open / Save /
Save As with any answers of the user, `m_currentFile` is empty or is a path
with which a Save As chooser was accepted earlier in the run (so, all the more,
a path confirmed in a Save As or an Open chooser). -/
theorem currentFile_only_confirmed (env : Env) (tab : EditTab) (u : User)
    (acts : List Action) :
    (run env acts (initialWorld tab, u)).1.m_currentFile = [] ∨
    Event.saveAsChooser (some (run env acts (initialWorld tab, u)).1.m_currentFile) ∈
      (run env acts (initialWorld tab, u)).1.trace ∨
    ∃ prm, Event.loadChooser (some prm) ∈ (run env acts (initialWorld tab, u)).1.trace ∧
      prm.filepath = (run env acts (initialWorld tab, u)).1.m_currentFile := by
  rcases run_confirmed env acts (initialWorld tab, u) (Or.inl rfl) with h | h
  · exact Or.inl h
  · exact Or.inr (Or.inl h)

/-- C10: the binary path `removeFileExt(p) + ".bin"` equals `p` exactly when
`p` ends with `.bin`; a path without `'.'` is returned unchanged by
`removeFileExt`, so its binary path is `p ++ ".bin"`.  Hence, with
`m_currentFile` set, `saveFilesTriggered` makes its two write attempts, text
then binary, on two different files exactly when `m_currentFile` does not end
with `.bin`. -/
theorem binary_target_is_text_file_iff (env : Env) (dlg : List (Option QString))
    (w : World) (p : QString) :
    (derivedBinaryPath p = p ↔ ".bin".toList <:+ p) ∧
    ('.' ∉ p → removeFileExt p = p ∧ derivedBinaryPath p = p ++ ".bin".toList) ∧
    (w.m_currentFile ≠ [] →
      ∃ q, q = removeFileExt w.m_currentFile ++ ".bin".toList ∧
        (saveFilesTriggered env dlg w).1.trace = w.trace ++
          [Event.writeText w.m_currentFile w.m_editTab.getAssemblyText
              (openWriteOnly env w.m_currentFile),
            Event.writeBinary q w.m_editTab.getBinaryData (openWriteOnly env q)] ∧
        (q ≠ w.m_currentFile ↔ ¬ ".bin".toList <:+ w.m_currentFile)) := by
  refine ⟨derivedBinaryPath_eq_self_iff p, ?_, ?_⟩
  · intro h
    have hr := removeFileExt_of_no_dot p h
    exact ⟨hr, by rw [derivedBinaryPath, hr]; rfl⟩
  · intro h
    refine ⟨derivedBinaryPath w.m_currentFile, rfl, ?_, ?_⟩
    · rw [saveFilesTriggered_of_path env dlg w h]
      exact writeFiles_trace env w
    · exact not_congr (derivedBinaryPath_eq_self_iff w.m_currentFile)

/-- The statement of C10 on two concrete paths: saved as `prog.s` the binary
goes to another file, and for the path `out.bin` the binary path is `out.bin`
itself. -/
theorem binary_target_is_text_file_iff_witness :
    derivedBinaryPath "out.bin".toList = "out.bin".toList ∧
    ∃ q, q = removeFileExt savedWorld.m_currentFile ++ ".bin".toList ∧
      (saveFilesTriggered permissiveEnv [] savedWorld).1.trace = savedWorld.trace ++
        [Event.writeText savedWorld.m_currentFile savedWorld.m_editTab.getAssemblyText
            (openWriteOnly permissiveEnv savedWorld.m_currentFile),
          Event.writeBinary q savedWorld.m_editTab.getBinaryData
            (openWriteOnly permissiveEnv q)] ∧
      (q ≠ savedWorld.m_currentFile ↔ ¬ ".bin".toList <:+ savedWorld.m_currentFile) :=
  ⟨(binary_target_is_text_file_iff permissiveEnv [] savedWorld "out.bin".toList).1.mpr
      ⟨"out".toList, by decide⟩,
    (binary_target_is_text_file_iff permissiveEnv [] savedWorld "out.bin".toList).2.2
      (by decide)⟩

/-- C1, evaluated: Save without a current file, the chooser accepted with
`prog.s`.  One chooser is shown, and then the text and the binary are each
written twice: once by the `saveFilesTriggered()` that `saveFilesAsTriggered`
calls (line 208), and once more by the outer call, which goes on after
line 182. -/
theorem saveFilesTriggered_unset_accepted_trace :
    (saveFilesTriggered permissiveEnv [some "prog.s".toList] untitledWorld).1.trace =
      [Event.saveAsChooser (some "prog.s".toList),
        Event.writeText "prog.s".toList "nop".toList true,
        Event.writeBinary "prog.bin".toList [19, 0] true,
        Event.writeText "prog.s".toList "nop".toList true,
        Event.writeBinary "prog.bin".toList [19, 0] true] := by
  decide

/-- C8, evaluated: Save without a current file, the chooser rejected.
`m_currentFile` stays empty, but the outer call goes on after line 182: it
tries to write the text to the file with the empty name (which cannot be
opened) and writes the binary to the file `.bin`. -/
theorem saveFilesTriggered_unset_rejected_trace :
    saveFilesTriggered permissiveEnv [none] untitledWorld =
      ({ m_currentFile := [], m_editTab := sampleTab,
         trace := [Event.saveAsChooser none,
           Event.writeText [] "nop".toList false,
           Event.writeBinary ".bin".toList [19, 0] true] }, []) := by
  decide

/-- C9, evaluated: New on unsaved text without a current file, the prompt
answered Yes, the chooser rejected.  Nothing is written, and the run still
reaches lines 250-251: the editor is reset and its text is gone. -/
theorem newProgramTriggered_yes_rejected_resets :
    newProgramTriggered permissiveEnv ⟨[Button.Yes], [none], []⟩ untitledWorld =
      ({ m_currentFile := [], m_editTab := { assemblyText := [], binaryData := [] },
         trace := [Event.prompt Button.Yes, Event.saveAsChooser none,
           Event.editorNewProgram] }, ⟨[], [], []⟩) := by
  decide

end Ripes
